import Mathlib

/-!
Shallow embedding of `check_dbt_documentation.py` (dbt documentation
coverage checker).  Python floats are modelled as `ℚ`, JSON dictionaries
with possibly-missing keys as structures of `Option` fields, strings that
undergo character-level processing as `List Char`, and a raised exception
as `Option.none` in an `Option` result.
-/

namespace DbtDoc

/-- One entry of a table's `columns` array: a JSON object whose keys
`name` and `coverage` may each be missing. -/
structure ColumnCoverage where
  name : Option String
  coverage : Option ℚ
deriving DecidableEq

/-- One entry of the report's `tables` array. -/
structure TableCoverage where
  name : Option String
  coverage : Option ℚ
  columns : Option (List ColumnCoverage)
deriving DecidableEq

/-- The top-level JSON coverage report read from
`documentation_coverage.json`. -/
structure CoverageReport where
  coverage : Option ℚ
  covered : Option ℚ
  total : Option ℚ
  tables : Option (List TableCoverage)
deriving DecidableEq

/-- A Python dict with none of the modelled keys present is the empty
dict `{}`, which is falsy. -/
def CoverageReport.isEmptyDict (r : CoverageReport) : Bool :=
  r.coverage.isNone && r.covered.isNone && r.total.isNone && r.tables.isNone

/-- The `coverage_data` argument of `analyze_coverage_data`: either
Python `None` (acquisition failed) or a dict. -/
inductive PyReport where
  | noneVal : PyReport
  | dict : CoverageReport → PyReport
deriving DecidableEq

/-- Python truthiness test `not coverage_data`: `None` and the empty
dict are falsy. -/
def PyReport.falsy : PyReport → Bool
  | .noneVal => true
  | .dict r => r.isEmptyDict

/-- One record of the `models_needing_fixes` list built by
`analyze_coverage_data` (keys `model`, `coverage`, `missing_columns`). -/
structure DeficiencyRecord where
  model : String
  coverage : ℚ
  missing_columns : List String
deriving DecidableEq

/-- Embeds the list comprehension
`[col['name'] for col in table.get('columns', []) if col.get('coverage', 0) == 0]`.
The subscript `col['name']` raises `KeyError` when the key is missing,
modelled by `Option.none`. -/
def missing_cols : List ColumnCoverage → Option (List String)
  | [] => some []
  | c :: cs =>
    if c.coverage.getD 0 = 0 then
      match c.name with
      | Option.none => Option.none
      | some n => (missing_cols cs).map (fun ms => n :: ms)
    else missing_cols cs

/-- Embeds the `for table in coverage_data.get('tables', [])` loop of
`analyze_coverage_data` (lines 91-106): builds the unsorted
`models_needing_fixes` list, propagating a `KeyError` as `Option.none`. -/
def table_records : List TableCoverage → Option (List DeficiencyRecord)
  | [] => some []
  | t :: ts =>
    if t.coverage.getD 0 < 1 then
      match missing_cols (t.columns.getD []) with
      | Option.none => Option.none
      | some ms =>
        match table_records ts with
        | Option.none => Option.none
        | some rest =>
          if ms = [] then some rest
          else some (⟨t.name.getD "", t.coverage.getD 0 * 100, ms⟩ :: rest)
    else table_records ts

/-- The sort key of line 108: `key=lambda x: x['coverage']`. -/
def defLE : DeficiencyRecord → DeficiencyRecord → Prop :=
  fun a b => a.coverage ≤ b.coverage

instance : DecidableRel defLE :=
  fun a b => inferInstanceAs (Decidable (a.coverage ≤ b.coverage))

instance : IsTotal DeficiencyRecord defLE :=
  ⟨fun a b => le_total a.coverage b.coverage⟩

instance : IsTrans DeficiencyRecord defLE :=
  ⟨fun _ _ _ h1 h2 => le_trans h1 h2⟩

/-- Embeds `models_needing_fixes.sort(key=lambda x: x['coverage'])`:
Python's list sort is stable, so it is extensionally insertion sort by
the key. -/
def sort_fixes (l : List DeficiencyRecord) : List DeficiencyRecord :=
  l.insertionSort defLE

/-- The deficiency list `analyze_coverage_data` renders: the loop's
output, sorted (lines 91-108); `Option.none` when the loop raised. -/
def deficiency_list (r : CoverageReport) : Option (List DeficiencyRecord) :=
  (table_records (r.tables.getD [])).map sort_fixes

/-- Severity tiers printed for a deficiency record. -/
inductive Severity where
  | CRITICAL : Severity
  | WARNING : Severity
  | MINOR : Severity
deriving DecidableEq

/-- Embeds the classification of lines 113-122: first match wins. -/
def severity (threshold pct : ℚ) : Severity :=
  if pct = 0 then Severity.CRITICAL
  else if pct < threshold * 100 then Severity.WARNING
  else Severity.MINOR

/-- Abstraction of the messages `analyze_coverage_data` emits through
`log_and_print`, in emission order. -/
inductive LogEvent where
  | noData : LogEvent
  | summary : ℚ → ℚ → ℚ → LogEvent
  | fixesHeader : LogEvent
  | fixItem : Severity → String → ℚ → List String → LogEvent
  | belowThreshold : ℚ → ℚ → LogEvent
  | meetsThreshold : ℚ → ℚ → LogEvent
deriving DecidableEq

/-- Embeds `analyze_coverage_data(coverage_data, threshold)` (lines
76-134).  Returns the emitted log events together with the returned
exit code, or `Option.none` when the Python code raises `KeyError`. -/
def analyze_coverage_data (coverage_data : PyReport) (threshold : ℚ) :
    Option (List LogEvent × Nat) :=
  match coverage_data with
  | .noneVal => some ([LogEvent.noData], 1)
  | .dict r =>
    if r.isEmptyDict then some ([LogEvent.noData], 1)
    else
      match deficiency_list r with
      | Option.none => Option.none
      | some fixes =>
        let tc := r.coverage.getD 0
        let fixLogs :=
          if fixes = [] then ([] : List LogEvent)
          else LogEvent.fixesHeader ::
            fixes.map (fun item =>
              LogEvent.fixItem (severity threshold item.coverage) item.model
                item.coverage item.missing_columns)
        if tc < threshold then
          some ((LogEvent.summary (r.covered.getD 0) (r.total.getD 0) tc ::
            fixLogs) ++ [LogEvent.belowThreshold tc threshold], 1)
        else
          some ((LogEvent.summary (r.covered.getD 0) (r.total.getD 0) tc ::
            fixLogs) ++ [LogEvent.meetsThreshold tc threshold], 0)

/-- Embeds Python's `str.strip()` whitespace test for the ASCII
whitespace characters. -/
def pyIsSpace (c : Char) : Bool :=
  c == ' ' || c == '\n' || c == '\t' || c == '\r' || c == '\x0b' || c == '\x0c'

/-- Embeds `s.strip()`: drop whitespace from both ends. -/
def pyStrip (s : List Char) : List Char :=
  ((s.dropWhile pyIsSpace).reverse.dropWhile pyIsSpace).reverse

/-- Embeds `find_model_paths()` (lines 24-34) as a function of the
`find` subprocess outcome: `Option.none` for `CalledProcessError`, and
`some stdout` for a successful run.  The body is
`sorted(result.stdout.strip().split('\n')) if result.stdout else []`,
with `sorted` the stable lexicographic sort. -/
def find_model_paths (result : Option (List Char)) : List (List Char) :=
  match result with
  | Option.none => []
  | some stdout =>
    if stdout = [] then []
    else ((pyStrip stdout).splitOn '\n').insertionSort (· ≤ ·)

/-- Embeds `path.replace('./', '')`: Python's `str.replace` removes
every non-overlapping occurrence of the pattern, scanning left to
right. -/
def stripDotSlash : List Char → List Char
  | [] => []
  | [c] => [c]
  | c :: d :: rest =>
    if c = '.' ∧ d = '/' then stripDotSlash rest
    else c :: stripDotSlash (d :: rest)

/-- Embeds `create_path_filters(model_paths)` (lines 36-38):
`' '.join([f"--model-path-filter {path.replace('./', '')}" for path in model_paths if path])`. -/
def create_path_filters (model_paths : List (List Char)) : List Char :=
  List.intercalate [' ']
    ((model_paths.filter (fun p => p ≠ [])).map
      (fun p => "--model-path-filter ".toList ++ stripDotSlash p))

/-- Observable outcome of one run of `main()` (lines 136-152), as seen
by the operating system and the pipeline stages. -/
structure MainRun where
  processExit : Nat
  ranAcquisition : Bool
  ranAnalysis : Bool
  loggedNoModelPaths : Bool
deriving DecidableEq

/-- Embeds `main()` followed by the top-level call `main()` (lines
136-155), parameterised by the discovery result and the acquisition
result.  In the no-paths branch `main` executes `return 1`, and the
module-level statement `main()` discards that value, so the interpreter
exits with status 0; the other branch calls `sys.exit(exit_code)`.  An
uncaught exception from the analysis terminates the interpreter with
status 1. -/
def main (model_paths : List (List Char)) (acquired : PyReport)
    (threshold : ℚ) : MainRun :=
  if model_paths.isEmpty then
    ⟨0, false, false, true⟩
  else
    match analyze_coverage_data acquired threshold with
    | some (_, code) => ⟨code, true, true, false⟩
    | Option.none => ⟨1, true, true, false⟩

/-- The missing-column list the specification describes for one table:
the subsequence of column names whose coverage is 0, in column order. -/
def specMissing (tb : TableCoverage) : List String :=
  (tb.columns.getD []).filterMap
    (fun c => if c.coverage.getD 0 = 0 then some (c.name.getD "") else Option.none)

/-- The deficiency record the specification describes for one table:
present exactly when the table's coverage is below 1 and some column has
coverage 0. -/
def specRecord (tb : TableCoverage) : Option DeficiencyRecord :=
  if tb.coverage.getD 0 < 1 ∧ specMissing tb ≠ [] then
    some ⟨tb.name.getD "", tb.coverage.getD 0 * 100, specMissing tb⟩
  else Option.none

/-- The path transformation the claim describes: strip only a leading
`./` and leave the rest of the path unchanged. -/
def stripRoot (p : List Char) : List Char :=
  if p.take 2 = ['.', '/'] then p.drop 2 else p

/-- Whether the string contains the substring `./` anywhere. -/
def hasDotSlash : List Char → Bool
  | [] => false
  | c :: cs => (c == '.' && cs.headD ' ' == '/') || hasDotSlash cs

/-- Every column object of the report carries its `name` key (the one
field the analysis reads with a raising subscript). -/
def allColumnsNamed : PyReport → Bool
  | .noneVal => true
  | .dict r =>
    (r.tables.getD []).all
      (fun tb => (tb.columns.getD []).all (fun c => c.name.isSome))

/-- When the column loop does not raise, it returns exactly the
zero-coverage column names in column order. -/
theorem missing_cols_eq_filterMap (cs : List ColumnCoverage) (ms : List String)
    (h : missing_cols cs = some ms) :
    ms = cs.filterMap
      (fun c => if c.coverage.getD 0 = 0 then some (c.name.getD "") else Option.none) := by
  induction cs generalizing ms with
  | nil =>
    simp only [missing_cols, Option.some.injEq] at h
    simp [← h]
  | cons c cs ih =>
    by_cases hz : c.coverage.getD 0 = 0
    · cases hn : c.name with
      | none => simp [missing_cols, hz, hn] at h
      | some n =>
        simp only [missing_cols, hz, if_true, hn, Option.map_eq_some'] at h
        obtain ⟨ms', hms', rfl⟩ := h
        simp [List.filterMap_cons, hz, hn, ← ih ms' hms']
    · simp only [missing_cols, hz, if_false] at h
      simp [List.filterMap_cons, hz, ← ih ms h]

/-- When the table loop does not raise, the unsorted deficiency list is
exactly the per-table records the specification describes, in table
order. -/
theorem table_records_eq_filterMap (ts : List TableCoverage) (l : List DeficiencyRecord)
    (h : table_records ts = some l) : l = ts.filterMap specRecord := by
  induction ts generalizing l with
  | nil =>
    simp only [table_records, Option.some.injEq] at h
    simp [← h]
  | cons t ts ih =>
    by_cases hc : t.coverage.getD 0 < 1
    · cases hm : missing_cols (t.columns.getD []) with
      | none => simp [table_records, hc, hm] at h
      | some ms =>
        have hms : ms = specMissing t := missing_cols_eq_filterMap _ _ hm
        cases hr : table_records ts with
        | none => simp [table_records, hc, hm, hr] at h
        | some rest =>
          by_cases hz : ms = []
          · simp only [table_records, hc, if_true, hm, hr, hz, if_true,
              Option.some.injEq] at h
            have hrec : specRecord t = Option.none := by
              simp [specRecord, ← hms, hz]
            simp [List.filterMap_cons, hrec, ← h, ih rest hr]
          · simp only [table_records, hc, if_true, hm, hr, hz, if_false,
              Option.some.injEq] at h
            have hrec : specRecord t = some ⟨t.name.getD "", t.coverage.getD 0 * 100, ms⟩ := by
              simp [specRecord, ← hms, hz, hc]
            simp [List.filterMap_cons, hrec, ← h, ih rest hr]
    · simp only [table_records, hc, if_false] at h
      have hrec : specRecord t = Option.none := by
        simp [specRecord, hc]
      simp [List.filterMap_cons, hrec, ih l h]

/-- The column loop raises only through a missing `name` key. -/
theorem missing_cols_isSome (cs : List ColumnCoverage)
    (h : ∀ c ∈ cs, c.name.isSome = true) : (missing_cols cs).isSome = true := by
  induction cs with
  | nil => simp [missing_cols]
  | cons c cs ih =>
    have hc : c.name.isSome = true := h c (by simp)
    have ih' : (missing_cols cs).isSome = true :=
      ih (fun c' hc' => h c' (by simp [hc']))
    cases hn : c.name with
    | none => simp [hn] at hc
    | some n =>
      by_cases hz : c.coverage.getD 0 = 0
      · simpa [missing_cols, hz, hn] using ih'
      · simpa [missing_cols, hz] using ih'

/-- The table loop raises only through a missing column `name` key. -/
theorem table_records_isSome (ts : List TableCoverage)
    (h : ∀ tb ∈ ts, ∀ c ∈ tb.columns.getD [], c.name.isSome = true) :
    (table_records ts).isSome = true := by
  induction ts with
  | nil => simp [table_records]
  | cons t ts ih =>
    have ih' : (table_records ts).isSome = true :=
      ih (fun tb htb => h tb (by simp [htb]))
    by_cases hc : t.coverage.getD 0 < 1
    · have hm : (missing_cols (t.columns.getD [])).isSome = true :=
        missing_cols_isSome _ (h t (by simp))
      cases hmc : missing_cols (t.columns.getD []) with
      | none => simp [hmc] at hm
      | some ms =>
        cases hr : table_records ts with
        | none => simp [hr] at ih'
        | some rest =>
          by_cases hz : ms = [] <;> simp [table_records, hc, hmc, hr, hz]
    · simpa [table_records, hc] using ih'

/-- Inserting a record into a list keeps, for each key value, the
records with that key in order: the inserted record lands in front of
exactly the records with its own key. -/
theorem filter_orderedInsert_cov (p : ℚ) (a : DeficiencyRecord)
    (l : List DeficiencyRecord) :
    (l.orderedInsert defLE a).filter (fun x => decide (x.coverage = p)) =
      if a.coverage = p then
        a :: l.filter (fun x => decide (x.coverage = p))
      else l.filter (fun x => decide (x.coverage = p)) := by
  induction l with
  | nil => simp [List.orderedInsert, List.filter_cons]
  | cons b bs ih =>
    by_cases hab : defLE a b
    · simp only [List.orderedInsert, if_pos hab, List.filter_cons]
      by_cases hap : a.coverage = p <;> simp [hap]
    · have hba : b.coverage < a.coverage := lt_of_not_le hab
      simp only [List.orderedInsert, if_neg hab, List.filter_cons, ih]
      by_cases hap : a.coverage = p
      · have hbp : ¬ b.coverage = p := by
          rw [← hap]
          exact ne_of_lt hba
        simp [hap, hbp]
      · by_cases hbp : b.coverage = p <;> simp [hap, hbp]

/-- Python's stable sort keeps, for each key value, the records with
that key in their original relative order. -/
theorem filter_sort_fixes (p : ℚ) (l : List DeficiencyRecord) :
    (sort_fixes l).filter (fun x => decide (x.coverage = p)) =
      l.filter (fun x => decide (x.coverage = p)) := by
  induction l with
  | nil => rfl
  | cons a l ih =>
    have : sort_fixes (a :: l) = (sort_fixes l).orderedInsert defLE a := rfl
    rw [this, filter_orderedInsert_cov, List.filter_cons]
    by_cases hap : a.coverage = p <;> simp [hap, ih]

/-- The sorted deficiency list is non-decreasing in the sort key. -/
theorem sorted_sort_fixes (l : List DeficiencyRecord) :
    (sort_fixes l).Pairwise (fun a b => a.coverage ≤ b.coverage) :=
  List.sorted_insertionSort defLE l

/-- The sort only reorders the records. -/
theorem perm_sort_fixes (l : List DeficiencyRecord) : (sort_fixes l).Perm l :=
  List.perm_insertionSort defLE l

/-- C1: for every present (truthy) coverage report and every threshold,
whenever `analyze_coverage_data` returns an exit code, that code is 1
exactly when the aggregate `coverage` field (defaulting to 0) is
strictly below the threshold and 0 otherwise; the code is a function of
the aggregate figure alone, so no per-table content changes it. -/
theorem analyze_exit_iff_aggregate (r : CoverageReport) (t : ℚ)
    (logs : List LogEvent) (code : Nat)
    (hne : r.isEmptyDict = false)
    (h : analyze_coverage_data (.dict r) t = some (logs, code)) :
    code = if r.coverage.getD 0 < t then 1 else 0 := by
  simp only [analyze_coverage_data, hne, Bool.false_eq_true, if_false] at h
  cases hd : deficiency_list r with
  | none => simp [hd] at h
  | some fixes =>
    simp only [hd] at h
    by_cases hlt : r.coverage.getD 0 < t
    · simp only [hlt, if_true, Option.some.injEq, Prod.mk.injEq] at h
      simp [hlt, ← h.2]
    · simp only [hlt, if_false, Option.some.injEq, Prod.mk.injEq] at h
      simp [hlt, ← h.2]

theorem analyze_exit_iff_aggregate_witness :
    (1 : Nat) = if (mkRat 1 2 : ℚ) < mkRat 9 10 then 1 else 0 :=
  analyze_exit_iff_aggregate
    ⟨some (mkRat 1 2), Option.none, Option.none, Option.none⟩ (mkRat 9 10)
    [LogEvent.summary 0 0 (mkRat 1 2), LogEvent.belowThreshold (mkRat 1 2) (mkRat 9 10)] 1
    (by decide) (by with_unfolding_all decide)

/-- C7: for every threshold, analysing an absent report returns exit
code 1 and emits exactly the no-data message: no summary and no
deficiency output. -/
theorem analyze_none_no_data (t : ℚ) :
    analyze_coverage_data PyReport.noneVal t = some ([LogEvent.noData], 1) := rfl

/-- C10: for every threshold, a falsy report value — Python `None` or
the empty dict — is answered with the no-data message and exit code 1;
the empty dict is not treated as a report whose fields default to 0. -/
theorem analyze_falsy_no_data (d : PyReport) (t : ℚ) (h : d.falsy = true) :
    analyze_coverage_data d t = some ([LogEvent.noData], 1) := by
  cases d with
  | noneVal => rfl
  | dict r =>
    simp only [PyReport.falsy] at h
    simp [analyze_coverage_data, h]

theorem analyze_falsy_no_data_witness :
    analyze_coverage_data
        (.dict ⟨Option.none, Option.none, Option.none, Option.none⟩) 0 =
      some ([LogEvent.noData], 1) ∧ ¬ ((0 : ℚ) < 0) :=
  ⟨analyze_falsy_no_data (.dict ⟨Option.none, Option.none, Option.none, Option.none⟩) 0
    (by decide), by decide⟩

/-- C6: when discovery yields no model paths, the run logs the failure
and attempts neither acquisition nor analysis, but the process exit
status is 0, not the claimed 1: `main` executes `return 1` and the
bare top-level call `main()` discards the returned value. -/
theorem main_empty_paths_outcome (acq : PyReport) (t : ℚ) :
    main [] acq t = ⟨0, false, false, true⟩ := rfl

/-- C2: whenever `analyze_coverage_data` builds its deficiency list, the
list holds (up to the stable reordering of the sort) exactly one record
per table whose coverage is below 1 and which has a column of coverage
0; a record's `missing_columns` is exactly the subsequence of the
table's zero-coverage column names in column order, and is non-empty for
every record of the list. -/
theorem deficiency_list_membership (r : CoverageReport) (l : List DeficiencyRecord)
    (h : deficiency_list r = some l) :
    l.Perm ((r.tables.getD []).filterMap specRecord) ∧
      (∀ d, d ∈ l ↔ d ∈ (r.tables.getD []).filterMap specRecord) ∧
      ∀ d ∈ l, d.missing_columns ≠ [] := by
  cases hr : table_records (r.tables.getD []) with
  | none => simp [deficiency_list, hr] at h
  | some l₀ =>
    simp only [deficiency_list, hr, Option.map_some', Option.some.injEq] at h
    subst h
    have heq : l₀ = (r.tables.getD []).filterMap specRecord :=
      table_records_eq_filterMap _ _ hr
    have hperm : (sort_fixes l₀).Perm ((r.tables.getD []).filterMap specRecord) :=
      heq ▸ perm_sort_fixes l₀
    refine ⟨hperm, fun d => hperm.mem_iff, fun d hd => ?_⟩
    have hd' : d ∈ (r.tables.getD []).filterMap specRecord := hperm.mem_iff.mp hd
    obtain ⟨tb, _, hsr⟩ := List.mem_filterMap.mp hd'
    by_cases hcond : tb.coverage.getD 0 < 1 ∧ specMissing tb ≠ []
    · rw [specRecord, if_pos hcond] at hsr
      have hde := Option.some.inj hsr
      subst hde
      exact hcond.2
    · simp [specRecord, hcond] at hsr

theorem deficiency_list_membership_witness :
    ([⟨"orders", 50, ["tot"]⟩] : List DeficiencyRecord).Perm
        (((⟨some (mkRat 3 4), some 3, some 4,
          some [⟨some "orders", some (mkRat 1 2),
            some [⟨some "id", some 1⟩, ⟨some "tot", some 0⟩]⟩]⟩ :
              CoverageReport).tables.getD []).filterMap specRecord) ∧
      (∀ d, d ∈ ([⟨"orders", 50, ["tot"]⟩] : List DeficiencyRecord) ↔
        d ∈ ((⟨some (mkRat 3 4), some 3, some 4,
          some [⟨some "orders", some (mkRat 1 2),
            some [⟨some "id", some 1⟩, ⟨some "tot", some 0⟩]⟩]⟩ :
              CoverageReport).tables.getD []).filterMap specRecord) ∧
      ∀ d ∈ ([⟨"orders", 50, ["tot"]⟩] : List DeficiencyRecord),
        d.missing_columns ≠ [] :=
  deficiency_list_membership
    ⟨some (mkRat 3 4), some 3, some 4,
      some [⟨some "orders", some (mkRat 1 2),
        some [⟨some "id", some 1⟩, ⟨some "tot", some 0⟩]⟩]⟩
    [⟨"orders", 50, ["tot"]⟩] (by with_unfolding_all decide)

/-- C4: the deficiency list `analyze_coverage_data` renders is sorted
non-decreasing by the coverage percentage, and records with equal
percentage keep the relative order their tables have in the input
report (the loop output `l₀` is in input order and the sort is
stable). -/
theorem deficiency_list_sorted_stable (r : CoverageReport)
    (l₀ l : List DeficiencyRecord)
    (h₀ : table_records (r.tables.getD []) = some l₀)
    (h : deficiency_list r = some l) :
    l.Pairwise (fun a b => a.coverage ≤ b.coverage) ∧
      ∀ p : ℚ, l.filter (fun d => decide (d.coverage = p)) =
        l₀.filter (fun d => decide (d.coverage = p)) := by
  simp only [deficiency_list, h₀, Option.map_some', Option.some.injEq] at h
  subst h
  exact ⟨sorted_sort_fixes l₀, fun p => filter_sort_fixes p l₀⟩

theorem deficiency_list_sorted_stable_witness :
    ([⟨"z", 0, ["w"]⟩, ⟨"b", 50, ["x"]⟩, ⟨"a", 50, ["y"]⟩] :
        List DeficiencyRecord).Pairwise (fun a b => a.coverage ≤ b.coverage) ∧
      ∀ p : ℚ,
        ([⟨"z", 0, ["w"]⟩, ⟨"b", 50, ["x"]⟩, ⟨"a", 50, ["y"]⟩] :
            List DeficiencyRecord).filter (fun d => decide (d.coverage = p)) =
          ([⟨"b", 50, ["x"]⟩, ⟨"a", 50, ["y"]⟩, ⟨"z", 0, ["w"]⟩] :
            List DeficiencyRecord).filter (fun d => decide (d.coverage = p)) :=
  deficiency_list_sorted_stable
    ⟨some 1, Option.none, Option.none,
      some [⟨some "b", some (mkRat 1 2), some [⟨some "x", some 0⟩]⟩,
        ⟨some "a", some (mkRat 1 2), some [⟨some "y", some 0⟩]⟩,
        ⟨some "z", some 0, some [⟨some "w", some 0⟩]⟩]⟩
    [⟨"b", 50, ["x"]⟩, ⟨"a", 50, ["y"]⟩, ⟨"z", 0, ["w"]⟩]
    [⟨"z", 0, ["w"]⟩, ⟨"b", 50, ["x"]⟩, ⟨"a", 50, ["y"]⟩]
    (by with_unfolding_all decide) (by with_unfolding_all decide)

/-- C3 counterexample: at threshold 0 a deficiency record with coverage
percentage 0 exists and is classified CRITICAL, yet the claimed
"MINOR iff threshold*100 ≤ coveragePercent" would force MINOR, since
0*100 ≤ 0; the biconditional for MINOR is false as stated. -/
theorem severity_minor_iff_fails :
    deficiency_list
        ⟨some 0, some 0, some 1,
          some [⟨some "m", some 0, some [⟨some "c", some 0⟩]⟩]⟩ =
      some [⟨"m", 0, ["c"]⟩] ∧
      ¬ (severity 0 0 = Severity.MINOR ↔ (0 : ℚ) * 100 ≤ 0) := by
  with_unfolding_all decide

/-- C3 amended: for deficiency records with non-negative coverage
percentage (the data model's range), the classification is total and
mutually exclusive: CRITICAL exactly at percentage 0, WARNING exactly
strictly between 0 and threshold*100, and MINOR exactly at or above
threshold*100 with non-zero percentage — the first matching rule wins,
so a percentage of 0 is CRITICAL even when threshold*100 ≤ 0. -/
theorem severity_classification (t pct : ℚ) (hp : 0 ≤ pct) :
    (severity t pct = Severity.CRITICAL ↔ pct = 0) ∧
      (severity t pct = Severity.WARNING ↔ 0 < pct ∧ pct < t * 100) ∧
      (severity t pct = Severity.MINOR ↔ 0 < pct ∧ t * 100 ≤ pct) := by
  unfold severity
  by_cases h0 : pct = 0
  · simp [h0]
  · have hpos : 0 < pct := lt_of_le_of_ne hp (Ne.symm h0)
    by_cases hw : pct < t * 100
    · simp [h0, hw, hpos, not_le.mpr hw]
    · simp [h0, hw, hpos, not_lt.mp hw]

theorem severity_classification_witness :
    (severity (mkRat 9 10) 50 = Severity.CRITICAL ↔ (50 : ℚ) = 0) ∧
      (severity (mkRat 9 10) 50 = Severity.WARNING ↔
        (0 : ℚ) < 50 ∧ (50 : ℚ) < mkRat 9 10 * 100) ∧
      (severity (mkRat 9 10) 50 = Severity.MINOR ↔
        (0 : ℚ) < 50 ∧ mkRat 9 10 * 100 ≤ 50) :=
  severity_classification (mkRat 9 10) 50 (by decide)

/-- C5 counterexample: a report holding a table of coverage below 1
with a column object that lacks its `name` key and has coverage 0 makes
`analyze_coverage_data` raise `KeyError` (the subscript `col['name']`)
instead of defaulting, so it returns no exit code. -/
theorem analyze_raises_on_unnamed_column :
    analyze_coverage_data
        (.dict ⟨some 1, some 1, some 2,
          some [⟨some "t", some (mkRat 1 2), some [⟨Option.none, some 0⟩]⟩]⟩)
        (mkRat 9 10) = Option.none := by
  with_unfolding_all decide

/-- C5 amended: `analyze_coverage_data` substitutes 0 for missing
numeric fields and the empty string for a missing table name and runs
to completion returning an exit code, provided every column object in
the report carries its `name` key; only the direct subscript
`col['name']` can raise. -/
theorem analyze_total_of_named (d : PyReport) (t : ℚ)
    (h : allColumnsNamed d = true) :
    (analyze_coverage_data d t).isSome = true := by
  cases d with
  | noneVal => rfl
  | dict r =>
    by_cases he : r.isEmptyDict
    · simp [analyze_coverage_data, he]
    · have hnames : ∀ tb ∈ r.tables.getD [], ∀ c ∈ tb.columns.getD [],
          c.name.isSome = true := by
        intro tb htb c hc
        simp only [allColumnsNamed, List.all_eq_true] at h
        exact h tb htb c hc
      have htr : (table_records (r.tables.getD [])).isSome = true :=
        table_records_isSome _ hnames
      cases hr : table_records (r.tables.getD []) with
      | none => simp [hr] at htr
      | some l₀ =>
        have hd : deficiency_list r = some (sort_fixes l₀) := by
          simp [deficiency_list, hr]
        simp only [analyze_coverage_data, he, Bool.false_eq_true, if_false, hd]
        by_cases hlt : r.coverage.getD 0 < t <;> simp [hlt]

theorem analyze_total_of_named_witness :
    (analyze_coverage_data
        (.dict ⟨some (mkRat 3 4), some 3, some 4,
          some [⟨some "orders", some (mkRat 1 2),
            some [⟨some "id", some 1⟩, ⟨some "tot", some 0⟩]⟩]⟩)
        (mkRat 9 10)).isSome = true :=
  analyze_total_of_named
    (.dict ⟨some (mkRat 3 4), some 3, some 4,
      some [⟨some "orders", some (mkRat 1 2),
        some [⟨some "id", some 1⟩, ⟨some "tot", some 0⟩]⟩]⟩)
    (mkRat 9 10) (by decide)

/-- A string without the substring `./` passes through the replacement
unchanged. -/
theorem stripDotSlash_no_occ :
    ∀ (p : List Char), hasDotSlash p = false → stripDotSlash p = p
  | [], _ => rfl
  | [_], _ => rfl
  | c :: d :: rest, h => by
    have hcd : ¬ (c = '.' ∧ d = '/') := by
      rintro ⟨rfl, rfl⟩
      simp [hasDotSlash, List.headD] at h
    have htail : hasDotSlash (d :: rest) = false := by
      simp only [hasDotSlash, Bool.or_eq_false_iff] at h ⊢
      exact h.2
    rw [stripDotSlash, if_neg hcd, stripDotSlash_no_occ (d :: rest) htail]

/-- When the path contains `./` at most as its leading prefix, the
replacement coincides with stripping only that prefix. -/
theorem stripDotSlash_eq_stripRoot (p : List Char)
    (h : hasDotSlash (stripRoot p) = false) : stripDotSlash p = stripRoot p := by
  match p with
  | [] => rfl
  | [c] =>
    rw [stripRoot, if_neg (by simp)]
    rfl
  | c :: d :: rest =>
    by_cases hcd : c = '.' ∧ d = '/'
    · obtain ⟨rfl, rfl⟩ := hcd
      have hroot : stripRoot ('.' :: '/' :: rest) = rest := by
        rw [stripRoot, if_pos (by simp)]
        rfl
      rw [hroot] at h
      rw [hroot, stripDotSlash, if_pos ⟨rfl, rfl⟩]
      exact stripDotSlash_no_occ rest h
    · have hroot : stripRoot (c :: d :: rest) = c :: d :: rest := by
        rw [stripRoot, if_neg ?hne]
        case hne =>
          simp only [List.take]
          rintro hq
          cases hq
          exact hcd ⟨rfl, rfl⟩
      rw [hroot] at h
      rw [hroot]
      exact stripDotSlash_no_occ _ h

/-- C8 counterexample: for the non-empty path `a./b`, which has no root
`./` prefix, the claim demands the unchanged token
`--model-path-filter a./b`, but `create_path_filters` removes the
interior `./` occurrence and produces `--model-path-filter ab`. -/
theorem create_path_filters_interior_strip :
    create_path_filters ["a./b".toList] = "--model-path-filter ab".toList ∧
      "--model-path-filter ".toList ++ stripRoot "a./b".toList =
        "--model-path-filter a./b".toList ∧
      "--model-path-filter ab".toList ≠ "--model-path-filter a./b".toList := by
  decide

/-- C8 amended: each non-empty path is mapped to a
`--model-path-filter ` token with every occurrence of the substring
`./` removed, the tokens are joined by single spaces, and the empty
input yields the empty string; this coincides with stripping only the
root `./` prefix exactly when the prefix-stripped path contains no
further `./` substring. -/
theorem create_path_filters_root_only (paths : List (List Char))
    (h : ∀ p ∈ paths, hasDotSlash (stripRoot p) = false) :
    create_path_filters paths =
      List.intercalate [' ']
        ((paths.filter (fun p => p ≠ [])).map
          (fun p => "--model-path-filter ".toList ++ stripRoot p)) := by
  unfold create_path_filters
  congr 1
  refine List.map_congr_left ?_
  intro p hp
  have hmem : p ∈ paths := List.mem_of_mem_filter hp
  rw [stripDotSlash_eq_stripRoot p (h p hmem)]

theorem create_path_filters_root_only_witness :
    create_path_filters ["./models/a".toList, "models/b".toList] =
      List.intercalate [' ']
        (((["./models/a".toList, "models/b".toList] : List (List Char)).filter
          (fun p => p ≠ [])).map
          (fun p => "--model-path-filter ".toList ++ stripRoot p)) :=
  create_path_filters_root_only ["./models/a".toList, "models/b".toList]
    (by decide)

/-- C9 counterexample: a query output listing the same line twice is
returned with the duplicate kept, so the result is not deduplicated. -/
theorem find_model_paths_not_dedup :
    find_model_paths (some "a\na".toList) = ["a".toList, "a".toList] ∧
      ¬ ([("a".toList : List Char), "a".toList]).Nodup := by
  decide

/-- C9 amended: the returned sequence is sorted lexicographically and
is a permutation of the lines of the stripped query output split on
newlines — duplicates included, nothing is deduplicated; a failed query
or empty output yields the empty sequence. -/
theorem find_model_paths_sorted_perm (res : Option (List Char)) :
    (find_model_paths res).Pairwise (· ≤ ·) ∧
      (∀ out, res = some out → out ≠ [] →
        (find_model_paths res).Perm ((pyStrip out).splitOn '\n')) ∧
      (res = Option.none → find_model_paths res = []) ∧
      (∀ out, res = some out → out = [] → find_model_paths res = []) := by
  refine ⟨?_, ?_, ?_, ?_⟩
  · cases res with
    | none => simp [find_model_paths]
    | some out =>
      by_cases ho : out = []
      · simp [find_model_paths, ho]
      · simp only [find_model_paths, ho, if_false]
        exact List.sorted_insertionSort _ _
  · rintro out rfl ho
    simp only [find_model_paths, ho, if_false]
    exact List.perm_insertionSort _ _
  · rintro rfl
    rfl
  · rintro out rfl rfl
    rfl

theorem find_model_paths_sorted_perm_witness :
    (find_model_paths (some "b\na\nb".toList)).Pairwise (· ≤ ·) ∧
      (find_model_paths (some "b\na\nb".toList)).Perm
        ((pyStrip "b\na\nb".toList).splitOn '\n') :=
  ⟨(find_model_paths_sorted_perm (some "b\na\nb".toList)).1,
    (find_model_paths_sorted_perm (some "b\na\nb".toList)).2.1 _ rfl (by decide)⟩

end DbtDoc
